import Mathlib

/-!
# logcollectd: line forwarding engine

A shallow embedding of `src/logcollectd.c` (the daemon) and of the handoff
sender of `src/logcollect.c`.  Bytes are natural numbers, C strings are the
bytes stored in front of the first NUL, the process state is an explicit
record and every system call is recorded in a trace, its outcome being
supplied by the environment (`Sys`).
-/

namespace Logcollectd

/-! ## Constants of the system headers -/

/-- Severity `LOG_ERR` of `syslog.h`. -/
def LOG_ERR : Nat := 3
/-- Severity `LOG_WARNING` of `syslog.h`. -/
def LOG_WARNING : Nat := 4
/-- Severity `LOG_NOTICE` of `syslog.h`. -/
def LOG_NOTICE : Nat := 5
/-- Facility `LOG_LOCAL6` of `syslog.h`, that is `22 << 3`. -/
def LOG_LOCAL6 : Nat := 22 <<< 3
/-- Error number `EAGAIN` of `errno.h`. -/
def EAGAIN : Nat := 11
/-- Socket level `SOL_SOCKET`. -/
def SOL_SOCKET : Nat := 1
/-- Control message type `SCM_RIGHTS`. -/
def SCM_RIGHTS : Nat := 1
/-- Signal number `SIGINT`. -/
def SIGINT : Nat := 2
/-- Signal number `SIGTERM`. -/
def SIGTERM : Nat := 15

/-- Size of `static char hdr[1024]` in `on_data`. -/
def sizeof_hdr : Nat := 1024
/-- Size of `static char timestr[128]` in `on_data`. -/
def sizeof_timestr : Nat := 128
/-- Size of `static char text[128]` in `on_mysock`. -/
def sizeof_text : Nat := 128

/-! ## C strings -/

/-- The string stored at a memory region: the bytes in front of the first NUL. -/
def cstr (mem : List Nat) : List Nat := mem.takeWhile (fun c => c != 0)

/-- Result of `strdup`: a copy of the string stored at `mem`. -/
def strdup (mem : List Nat) : List Nat := cstr mem

/-- Bytes that `snprintf (dst, size, ...)` stores in front of the terminating
NUL, `out` being the fully formatted output. -/
def snprintf (size : Nat) (out : List Nat) : List Nat := out.take (size - 1)

/-- Conversion `%u`. -/
def fmtU (n : Nat) : List Nat := (Nat.toDigits 10 n).map Char.toNat

/-- Membership in the delimiter set `"\r\n"` handed to `strtok`. -/
def isDelim (c : Nat) : Bool := c == 13 || c == 10

/-- First phase of `strtok`: skip the delimiter bytes in front of the token
(`strspn`); it stops at the NUL, which is no delimiter. -/
def skipDelims : List Nat → List Nat
  | [] => []
  | c :: cs => if isDelim c then skipDelims cs else c :: cs

/-- Second phase of `strtok`: the token runs up to the next delimiter or NUL.
A delimiter is overwritten by NUL and the saved pointer moves behind it; at
the NUL the saved pointer stays on the NUL.  Returns the token and the memory
at the saved pointer. -/
def scanToken : List Nat → List Nat × List Nat
  | [] => ([], [])
  | c :: cs =>
    if c = 0 then ([], c :: cs)
    else if isDelim c then ([], cs)
    else ((c :: (scanToken cs).1), (scanToken cs).2)

/-- One call of `strtok (p, "\r\n")` (or of `strtok (NULL, "\r\n")` with `p`
the saved pointer): `none` is the NULL result, otherwise the token and the
memory at the new saved pointer. -/
def strtok (p : List Nat) : Option (List Nat × List Nat) :=
  match skipDelims p with
  | [] => none
  | c :: cs => if c = 0 then none else some (scanToken (c :: cs))

/-! ## Process state and environment -/

/-- Callbacks that the daemon registers with the dispatcher. -/
inductive Callback
  | on_data
  | on_mysock
  | on_signalfd
  deriving DecidableEq

/-- One dispatcher registration: descriptor, callback and user data (for
`on_data` the owned tag). -/
structure Reg where
  fd : Int
  cb : Callback
  dat : List Nat
  deriving DecidableEq

/-- Outcome of `sendmsg`. -/
inductive SendRes
  | ok
  | fail (errno : Nat)
  deriving DecidableEq

/-- First control message header of a received message. -/
structure CMsg where
  level : Nat
  type : Nat
  data : Int
  deriving DecidableEq

/-- Outcome of `recvmsg` on the rendezvous socket. -/
inductive RecvRes
  | error (errno : Nat)
  | msg (payload : List Nat) (cmsg : Option CMsg)
  deriving DecidableEq

/-- Outcome of `read`. -/
inductive ReadRes
  | error (errno : Nat)
  | bytes (chunk : List Nat)
  deriving DecidableEq

/-- System calls and library calls made by the daemon, with their outcomes. -/
inductive Event
  | syslog (level : Nat)
  | exit (code : Nat)
  | socket (ret : Int)
  | connect (sock : Int) (ret : Int)
  | close (fd : Int) (ret : Int)
  | sendmsg (sock : Int) (hdr body : List Nat) (res : SendRes)
  | libe_add_fd (fd : Int) (cb : Callback) (dat : List Nat)
  | libe_remove_fd (fd : Int)
  | free (dat : List Nat)
  deriving DecidableEq

/-- What the environment answers during one callback. -/
structure Sys where
  /-- result of `read` -/
  read : ReadRes
  /-- string left in `timestr` by `strftime` -/
  time : List Nat
  /-- result of `socket` -/
  socket : Int
  /-- result of `connect` -/
  connect : Int
  /-- result of `close` -/
  close : Int
  /-- result of the n-th `sendmsg` of the callback -/
  sendmsg : Nat → SendRes
  /-- result of `recvmsg` -/
  recvmsg : RecvRes
  /-- value of `ssi_signo` read from the signalfd, `none` when the read fails -/
  signo : Option Nat

/-- State of the daemon process. -/
structure Daemon where
  /-- the global `logsock` -/
  logsock : Int
  /-- the registrations held by the dispatcher -/
  regs : List Reg
  /-- set once `exit` has been called -/
  exited : Bool
  /-- calls made so far -/
  trace : List Event
  deriving DecidableEq

/-- Record a call in the trace. -/
def emit (e : Event) (s : Daemon) : Daemon := { s with trace := s.trace ++ [e] }

/-- Sequencing: nothing runs after `exit`. -/
def andThen (s : Daemon) (k : Daemon → Daemon) : Daemon :=
  if s.exited then s else k s

/-- The function `mylog`: `vsyslog`, then `exit (EXIT_FAILURE)` when the level is
`LOG_ERR` or more severe. -/
def mylog (level : Nat) (s : Daemon) : Daemon :=
  let s := emit (Event.syslog level) s
  if level ≤ LOG_ERR then { emit (Event.exit 1) s with exited := true } else s

/-- Modelled from the spec: `libe_add_fd` of `lib/libe.h`, which registers a
descriptor for read-readiness with a callback and opaque user data. -/
def libe_add_fd (fd : Int) (cb : Callback) (dat : List Nat) (s : Daemon) : Daemon :=
  { emit (Event.libe_add_fd fd cb dat) s with regs := s.regs ++ [⟨fd, cb, dat⟩] }

/-- Modelled from the spec: `libe_remove_fd` of `lib/libe.h`, which removes the
registration of a descriptor. -/
def libe_remove_fd (fd : Int) (s : Daemon) : Daemon :=
  { emit (Event.libe_remove_fd fd) s with regs := s.regs.filter (fun r => r.fd != fd) }

/-! ## The forwarder -/

/-- The function `connect_logsock`. -/
def connect_logsock (sys : Sys) (s : Daemon) : Daemon :=
  if s.logsock ≥ 0 then s
  else
    let sock := sys.socket
    let s := emit (Event.socket sock) s
    let s := if sock < 0 then mylog LOG_ERR s else s
    andThen s fun s =>
      let ret := sys.connect
      let s := emit (Event.connect sock ret) s
      if ret < 0 then
        let s := emit (Event.close sock sys.close) s
        if sys.close < 0 then mylog LOG_ERR s else s
      else
        let s := mylog LOG_NOTICE s
        { s with logsock := sock }

/-- The function `disconnected_logsock`. -/
def disconnected_logsock (s : Daemon) : Daemon :=
  let s := mylog LOG_NOTICE s
  { s with logsock := -1 }

/-- Header built by `snprintf (hdr, sizeof (hdr), "<%u>%s %s: ", ...)`, as
measured by `strlen (hdr)`. -/
def header (timestr label : List Nat) : List Nat :=
  snprintf sizeof_hdr
    ([60] ++ fmtU (LOG_NOTICE ||| LOG_LOCAL6) ++ [62] ++ cstr timestr ++ [32]
      ++ cstr label ++ [58, 32])

/-- The `for` loop of `on_data`.  `cur` is the value of `tok` together with the
saved pointer of `strtok`, `i` counts the `sendmsg` calls; `fuel` bounds the
number of iterations.  The statement `if (!tok) continue;` of the body is never
taken, the loop condition having tested `tok`. -/
def forward (sys : Sys) (hdr : List Nat) :
    Nat → Nat → Option (List Nat × List Nat) → Daemon → Daemon
  | 0, _, _, s => s
  | _ + 1, _, none, s => s
  | fuel + 1, i, some (tok, rest), s =>
    if s.logsock ≥ 0 then
      let res := sys.sendmsg i
      let s := emit (Event.sendmsg s.logsock hdr tok res) s
      match res with
      | SendRes.ok => forward sys hdr fuel (i + 1) (strtok rest) s
      | SendRes.fail errno =>
        if errno = EAGAIN then s
        else disconnected_logsock (mylog LOG_WARNING s)
    else s

/-- The callback `on_data (fd, dat)`.  The chunk is what `read` returned, at most
`sizeof (buf) - 1` bytes; it is terminated by NUL in `buf`, and the loop gets
the length of the buffer as fuel, which it never uses up
(`records_eq_segments_cstr`). -/
def on_data (sys : Sys) (fd : Int) (dat : List Nat) (s : Daemon) : Daemon :=
  match sys.read with
  | ReadRes.error _ => mylog LOG_ERR s
  | ReadRes.bytes chunk =>
    if chunk.length = 0 then
      let s := mylog LOG_NOTICE s
      let s := libe_remove_fd fd s
      let s := emit (Event.close fd sys.close) s
      let s := if sys.close < 0 then mylog LOG_ERR s else s
      andThen s fun s => emit (Event.free dat) s
    else
      let buf := chunk ++ [0]
      let hdr := header sys.time dat
      let s := connect_logsock sys s
      andThen s fun s => forward sys hdr buf.length 0 (strtok buf) s

/-! ## The handoff listener -/

/-- The callback `on_mysock`. -/
def on_mysock (sys : Sys) (s : Daemon) : Daemon :=
  match sys.recvmsg with
  | RecvRes.error _ => mylog LOG_ERR s
  | RecvRes.msg payload cmsg =>
    let text := payload.take (sizeof_text - 1) ++ [0]
    match cmsg with
    | some c =>
      if c.level = SOL_SOCKET ∧ c.type = SCM_RIGHTS then
        let peersock := c.data
        let s := mylog LOG_NOTICE s
        libe_add_fd peersock Callback.on_data (strdup text) s
      else mylog LOG_WARNING s
    | none => mylog LOG_WARNING s

/-- Index of the terminating-zero write `text[len] = 0` of `on_mysock`: the
number of bytes that `recvmsg` stores through an iovec of `sizeof (text) - 1`
bytes. -/
def recvLen (payload : List Nat) : Nat := (payload.take (sizeof_text - 1)).length

/-- The callback `on_signalfd`. -/
def on_signalfd (sys : Sys) (s : Daemon) : Daemon :=
  match sys.signo with
  | none => mylog LOG_ERR s
  | some n =>
    if n = SIGINT ∨ n = SIGTERM then
      let s := mylog LOG_WARNING s
      { emit (Event.exit 0) s with exited := true }
    else s

/-- The message sent by `deliver_logcollect (fd, tag)` of the client: the
payload is `strlen (tag)` bytes of the tag, the control message carries the
descriptor. -/
def deliver_logcollect (fd : Int) (tag : List Nat) : RecvRes :=
  RecvRes.msg (cstr tag) (some ⟨SOL_SOCKET, SCM_RIGHTS, fd⟩)

/-! ## The main loop -/

/-- State of `main` in front of its loop, `signalfd`, `socket` and `bind` having
succeeded: the signal descriptor and the rendezvous socket are registered, the
forwarder is disconnected. -/
def main_init (sigfd mysock : Int) : Daemon :=
  libe_add_fd mysock Callback.on_mysock []
    (libe_add_fd sigfd Callback.on_signalfd [] ⟨-1, [], false, []⟩)

/-- Modelled from the spec: one readiness event of `libe_wait`/`libe_flush` of
`lib/libe.h`, which invokes the callback registered for the ready descriptor
with its user data. -/
def dispatch (fd : Int) (sys : Sys) (s : Daemon) : Daemon :=
  andThen s fun s =>
    match s.regs.find? (fun r => r.fd == fd) with
    | none => s
    | some r =>
      match r.cb with
      | Callback.on_data => on_data sys r.fd r.dat s
      | Callback.on_mysock => on_mysock sys s
      | Callback.on_signalfd => on_signalfd sys s

/-- The loop of `main` over a sequence of readiness events. -/
def run (s : Daemon) : List (Int × Sys) → Daemon
  | [] => s
  | (fd, sys) :: evs => run (dispatch fd sys s) evs

/-! ## Observations on traces -/

/-- Record parts of the messages that were sent successfully. -/
def sentBodies : List Event → List (List Nat)
  | [] => []
  | Event.sendmsg _ _ body SendRes.ok :: es => body :: sentBodies es
  | _ :: es => sentBodies es

/-- All `sendmsg` calls: socket, header, record part, outcome. -/
def sendCalls : List Event → List (Int × List Nat × List Nat × SendRes)
  | [] => []
  | Event.sendmsg sock hdr body res :: es => (sock, hdr, body, res) :: sendCalls es
  | _ :: es => sendCalls es

/-- Results of all `socket` calls, one per connect attempt. -/
def socketCalls : List Event → List Int
  | [] => []
  | Event.socket ret :: es => ret :: socketCalls es
  | _ :: es => socketCalls es

/-- Outbound sockets that were opened by `socket` and not closed since. -/
def openOutbound : List Event → List Int → List Int
  | [], acc => acc
  | Event.socket ret :: es, acc => openOutbound es (if ret ≥ 0 then acc ++ [ret] else acc)
  | Event.close fd ret :: es, acc =>
    openOutbound es (if ret ≥ 0 then acc.filter (fun x => x != fd) else acc)
  | _ :: es, acc => openOutbound es acc

/-- The records of a chunk: the tokens that successive `strtok` calls return on
the NUL-terminated buffer. -/
def tokens : Nat → Option (List Nat × List Nat) → List (List Nat)
  | 0, _ => []
  | _ + 1, none => []
  | fuel + 1, some (tok, rest) => tok :: tokens fuel (strtok rest)

/-- Records of a chunk as `on_data` enumerates them. -/
def records (chunk : List Nat) : List (List Nat) :=
  tokens (chunk ++ [0]).length (strtok (chunk ++ [0]))

/-- The non-empty segments of a chunk delimited by CR/LF characters, following
the words of the specification. -/
def segments (chunk : List Nat) : List (List Nat) :=
  (chunk.splitOnP isDelim).filter (fun seg => !seg.isEmpty)

/-- Calls made by a callback `f` that is started in state `s`. -/
def callsOf (f : Daemon → Daemon) (s : Daemon) : List Event :=
  (f s).trace.drop s.trace.length

/-- The state `s` placed behind an earlier trace `t` and given the registrations
`rg`; used to state that the forwarding path ignores both. -/
def frame (t : List Event) (rg : List Reg) (s : Daemon) : Daemon :=
  { s with trace := t ++ s.trace, regs := rg }

/-- ASCII text as bytes. -/
def ascii (s : String) : List Nat := s.toList.map Char.toNat

/-- An environment in which every call succeeds; `socket` returns `sock`. -/
def sysOk (rd : ReadRes) (ts : List Nat) (sock : Int) : Sys :=
  ⟨rd, ts, sock, 0, 0, fun _ => SendRes.ok, RecvRes.error 0, none⟩

/-- An environment in which the `k`-th `sendmsg` fails with `errno` and every
other call succeeds. -/
def sysSendFails (rd : ReadRes) (ts : List Nat) (sock : Int) (k errno : Nat) : Sys :=
  ⟨rd, ts, sock, 0, 0, fun j => if j = k then SendRes.fail errno else SendRes.ok,
    RecvRes.error 0, none⟩

/-- An environment for `on_mysock` in which `recvmsg` returns `m`. -/
def sysRecv (m : RecvRes) : Sys :=
  ⟨ReadRes.error 0, [], 0, 0, 0, fun _ => SendRes.ok, m, none⟩

/-- An environment in which `socket` returns `sock`, `connect` returns `conn` and
`close` returns `cl`. -/
def sysConnect (rd : ReadRes) (ts : List Nat) (sock conn cl : Int) : Sys :=
  ⟨rd, ts, sock, conn, cl, fun _ => SendRes.ok, RecvRes.error 0, none⟩

/-- A time string as `strftime` leaves it for the format `"%b %e %T"`. -/
def exTime : List Nat := ascii "Oct 31 12:00:00"

/-- A running daemon with streams `build` on descriptor 7 and `test` on
descriptor 8, the forwarder connected on descriptor 5. -/
def exConnected : Daemon :=
  ⟨5, [⟨7, Callback.on_data, ascii "build"⟩, ⟨8, Callback.on_data, ascii "test"⟩], false, []⟩

/-- The daemon `exConnected` after a read of `a LF b LF` on stream 7 whose first
send failed with `ECONNREFUSED` (111). -/
def exAfterFailure : Daemon :=
  on_data (sysSendFails (ReadRes.bytes (ascii "a\nb\n")) exTime 6 0 111) 7 (ascii "build")
    exConnected

/-- Readiness events: a handoff of descriptor 7 with tag `build`; a read of
`x LF` on 7 for which the forwarder connects on socket 5 and the send fails with
`ECONNREFUSED` (111); a read of `y LF` on 7 for which the forwarder connects on
socket 6 and the send succeeds. -/
def exLeakEvents : List (Int × Sys) :=
  [(4, sysRecv (deliver_logcollect 7 (ascii "build"))),
   (7, sysSendFails (ReadRes.bytes (ascii "x\n")) exTime 5 0 111),
   (7, sysOk (ReadRes.bytes (ascii "y\n")) exTime 6)]

/-- The same daemon with the forwarder disconnected. -/
def exDisconnected : Daemon :=
  ⟨-1, [⟨7, Callback.on_data, ascii "build"⟩, ⟨8, Callback.on_data, ascii "test"⟩], false, []⟩

/-! ## Lemmas on splitting -/

theorem isDelim_zero : isDelim 0 = false := by decide

theorem cstr_eq_self {l : List Nat} (h : ∀ c ∈ l, c ≠ 0) : cstr l = l := by
  unfold cstr
  rw [List.takeWhile_eq_self_iff]
  intro c hc
  simpa using h c hc

theorem cstr_no_nul (l : List Nat) : ∀ c ∈ cstr l, c ≠ 0 := by
  intro c hc
  have := List.mem_takeWhile_imp hc
  simpa using this

theorem cstr_length_le (l : List Nat) : (cstr l).length ≤ l.length :=
  (List.takeWhile_sublist _).length_le

theorem cstr_append_nul (l junk : List Nat) (h : ∀ c ∈ l, c ≠ 0) :
    cstr (l ++ 0 :: junk) = l := by
  induction l with
  | nil => simp [cstr]
  | cons a t ih =>
    have ha : a ≠ 0 := h a (List.mem_cons_self _ _)
    have ht : ∀ c ∈ t, c ≠ 0 := fun c hc => h c (List.mem_cons_of_mem _ hc)
    have := ih ht
    simp only [cstr] at this ⊢
    simp [List.takeWhile_cons, ha, this]

/-- A NUL-terminated buffer is its string followed by NUL and further bytes. -/
theorem buf_split (chunk : List Nat) :
    ∃ junk, chunk ++ [0] = cstr chunk ++ 0 :: junk := by
  induction chunk with
  | nil => exact ⟨[], by simp [cstr]⟩
  | cons a t ih =>
    obtain ⟨j, hj⟩ := ih
    by_cases ha : a = 0
    · subst ha
      exact ⟨t ++ [0], by simp [cstr]⟩
    · refine ⟨j, ?_⟩
      simp only [cstr] at hj ⊢
      simp [List.takeWhile_cons, ha, hj]

theorem skipDelims_append (l junk : List Nat) :
    skipDelims (l ++ 0 :: junk) = l.dropWhile isDelim ++ 0 :: junk := by
  induction l with
  | nil => simp [skipDelims, isDelim_zero]
  | cons a t ih =>
    by_cases ha : isDelim a = true
    · simp [skipDelims, ha, ih, List.dropWhile_cons]
    · simp [skipDelims, ha, List.dropWhile_cons]

theorem scanToken_append (l junk : List Nat) (h : ∀ c ∈ l, c ≠ 0) :
    scanToken (l ++ 0 :: junk) =
      (l.takeWhile (fun c => !isDelim c),
        (l.dropWhile (fun c => !isDelim c)).tail ++ 0 :: junk) := by
  induction l with
  | nil => simp [scanToken]
  | cons a t ih =>
    have ha : a ≠ 0 := h a (List.mem_cons_self _ _)
    have ht : ∀ c ∈ t, c ≠ 0 := fun c hc => h c (List.mem_cons_of_mem _ hc)
    by_cases hd : isDelim a = true
    · simp [scanToken, ha, hd, List.takeWhile_cons, List.dropWhile_cons]
    · simp [scanToken, ha, hd, List.takeWhile_cons, List.dropWhile_cons, ih ht]

theorem splitOnP_eq_takeWhile (l : List Nat) :
    l.splitOnP isDelim =
      l.takeWhile (fun c => !isDelim c) ::
        (match l.dropWhile (fun c => !isDelim c) with
          | [] => []
          | _ :: r => r.splitOnP isDelim) := by
  induction l with
  | nil => simp
  | cons a t ih =>
    by_cases hd : isDelim a = true
    · simp [List.splitOnP_cons, hd, List.takeWhile_cons, List.dropWhile_cons]
    · rw [List.splitOnP_cons, ih]
      simp [hd, List.takeWhile_cons, List.dropWhile_cons, List.modifyHead]

theorem segments_nil : segments [] = [] := by
  simp [segments]

theorem segments_cons_delim (a : Nat) (l : List Nat) (h : isDelim a = true) :
    segments (a :: l) = segments l := by
  simp [segments, List.splitOnP_cons, h]

theorem segments_cons_text (a : Nat) (l : List Nat) (h : isDelim a = false) :
    segments (a :: l) =
      (a :: l.takeWhile (fun c => !isDelim c)) ::
        segments (l.dropWhile (fun c => !isDelim c)).tail := by
  unfold segments
  rw [List.splitOnP_cons, splitOnP_eq_takeWhile l]
  cases hdw : l.dropWhile (fun c => !isDelim c) with
  | nil => simp [h, List.modifyHead]
  | cons d r => simp [h, List.modifyHead]

theorem segments_dropWhile (l : List Nat) :
    segments (l.dropWhile isDelim) = segments l := by
  induction l with
  | nil => rfl
  | cons a t ih =>
    by_cases hd : isDelim a = true
    · rw [List.dropWhile_cons_of_pos hd, ih, segments_cons_delim a t hd]
    · rw [List.dropWhile_cons_of_neg hd]

/-- Enumerating tokens with `strtok` yields the CR/LF-delimited non-empty
segments of the string in the buffer, whenever the fuel exceeds its length. -/
theorem tokens_eq_segments :
    ∀ (n : Nat) (l junk : List Nat), (∀ c ∈ l, c ≠ 0) → l.length < n →
      tokens n (strtok (l ++ 0 :: junk)) = segments l := by
  intro n
  induction n with
  | zero => intro l junk _ h; omega
  | succ n ih =>
    intro l junk hl hlen
    rw [← segments_dropWhile l]
    have hsub : (l.dropWhile isDelim).Sublist l := (List.dropWhile_suffix _).sublist
    unfold strtok
    rw [skipDelims_append]
    cases hdw : l.dropWhile isDelim with
    | nil => simp [tokens, segments_nil]
    | cons a t =>
      rw [hdw] at hsub
      have ha0 : a ≠ 0 := hl a (hsub.subset (List.mem_cons_self _ _))
      have ht0 : ∀ c ∈ t, c ≠ 0 :=
        fun c hc => hl c (hsub.subset (List.mem_cons_of_mem _ hc))
      have had : isDelim a = false := by
        have := List.head_dropWhile_not isDelim l (by rw [hdw]; simp)
        simpa [hdw] using this
      have hscan := scanToken_append (a :: t) junk
        (fun c hc => hl c (hsub.subset hc))
      simp only [List.cons_append] at hscan ⊢
      simp only [ha0, if_false, hscan, tokens]
      rw [segments_cons_text a t had]
      have htl : ((a :: t).dropWhile (fun c => !isDelim c)).tail
          = (t.dropWhile (fun c => !isDelim c)).tail := by
        simp [List.dropWhile_cons, had]
      have htk : (a :: t).takeWhile (fun c => !isDelim c)
          = a :: t.takeWhile (fun c => !isDelim c) := by
        simp [List.takeWhile_cons, had]
      rw [htl, htk]
      congr 1
      have hsub2 : (t.dropWhile (fun c => !isDelim c)).tail.Sublist t :=
        (List.tail_sublist _).trans (List.dropWhile_suffix _).sublist
      apply ih
      · intro c hc
        exact ht0 c (hsub2.subset hc)
      · have h1 := hsub2.length_le
        have h2 := hsub.length_le
        simp only [List.length_cons] at h2
        omega

/-- The records of a chunk are the segments of the text in front of its first
NUL byte. -/
theorem records_eq_segments_cstr (chunk : List Nat) :
    records chunk = segments (cstr chunk) := by
  obtain ⟨junk, hj⟩ := buf_split chunk
  unfold records
  rw [hj]
  apply tokens_eq_segments _ _ _ (cstr_no_nul chunk)
  have := cstr_length_le chunk
  simp only [List.length_append, List.length_cons]
  omega

theorem records_eq_segments {chunk : List Nat} (h : ∀ c ∈ chunk, c ≠ 0) :
    records chunk = segments chunk := by
  rw [records_eq_segments_cstr, cstr_eq_self h]

/-! ## Lemmas on the forwarder -/

theorem emit_frame (e : Event) (t : List Event) (rg : List Reg) (s : Daemon) :
    emit e (frame t rg s) = frame t rg (emit e s) := by
  simp [emit, frame]

theorem mylog_frame (l : Nat) (t : List Event) (rg : List Reg) (s : Daemon) :
    mylog l (frame t rg s) = frame t rg (mylog l s) := by
  unfold mylog
  by_cases h : l ≤ LOG_ERR <;> simp [h, emit, frame]

theorem andThen_frame (t : List Event) (rg : List Reg) (s : Daemon) (k : Daemon → Daemon)
    (hk : ∀ u, k (frame t rg u) = frame t rg (k u)) :
    andThen (frame t rg s) k = frame t rg (andThen s k) := by
  unfold andThen
  by_cases h : s.exited = true
  · simp [h, frame]
  · have h2 : (frame t rg s).exited = s.exited := rfl
    simp [h, h2, hk]

theorem connect_logsock_frame (sys : Sys) (t : List Event) (rg : List Reg) (s : Daemon) :
    connect_logsock sys (frame t rg s) = frame t rg (connect_logsock sys s) := by
  unfold connect_logsock
  have hl : (frame t rg s).logsock = s.logsock := rfl
  by_cases h : s.logsock ≥ 0
  · simp [hl, h]
  · simp only [hl, h, if_false]
    by_cases hs : sys.socket < 0
    · simp only [hs, if_true, emit_frame, mylog_frame]
      apply andThen_frame
      intro u
      by_cases hc : sys.connect < 0
      · by_cases hcl : sys.close < 0 <;> simp [hc, hcl, emit_frame, mylog_frame]
      · simp only [hc, if_false, emit_frame, mylog_frame]
        rfl
    · simp only [hs, if_false, emit_frame]
      apply andThen_frame
      intro u
      by_cases hc : sys.connect < 0
      · by_cases hcl : sys.close < 0 <;> simp [hc, hcl, emit_frame, mylog_frame]
      · simp only [hc, if_false, emit_frame, mylog_frame]
        rfl

theorem disconnected_logsock_frame (t : List Event) (rg : List Reg) (s : Daemon) :
    disconnected_logsock (frame t rg s) = frame t rg (disconnected_logsock s) := by
  unfold disconnected_logsock
  simp only [mylog_frame]
  rfl

theorem forward_frame (sys : Sys) (hdr : List Nat) (t : List Event) (rg : List Reg) :
    ∀ (fuel i : Nat) (cur : Option (List Nat × List Nat)) (s : Daemon),
      forward sys hdr fuel i cur (frame t rg s) = frame t rg (forward sys hdr fuel i cur s) := by
  intro fuel
  induction fuel with
  | zero => intro i cur s; simp [forward]
  | succ n ih =>
    intro i cur s
    cases cur with
    | none => simp [forward]
    | some p =>
      obtain ⟨tok, rest⟩ := p
      have hl : (frame t rg s).logsock = s.logsock := rfl
      by_cases h : s.logsock ≥ 0
      · simp only [forward, hl, h, if_true, emit_frame]
        cases hres : sys.sendmsg i with
        | ok => simp only [ih]
        | fail errno =>
          by_cases he : errno = EAGAIN
          · simp [he]
          · simp [he, mylog_frame, disconnected_logsock_frame]
      · simp [forward, hl, h]

/-- On a non-empty read `on_data` neither inspects nor changes the earlier trace
and the registrations. -/
theorem on_data_frame (sys : Sys) (fd : Int) (dat : List Nat) (t : List Event)
    (rg : List Reg) (s : Daemon) (chunk : List Nat)
    (hread : sys.read = ReadRes.bytes chunk) (hne : chunk ≠ []) :
    on_data sys fd dat (frame t rg s) = frame t rg (on_data sys fd dat s) := by
  unfold on_data
  have hlen : ¬ chunk.length = 0 := by simpa using hne
  simp only [hread, hlen, if_false, connect_logsock_frame]
  apply andThen_frame
  intro u
  exact forward_frame sys _ t rg _ _ _ u

theorem frame_self (s : Daemon) :
    s = frame s.trace s.regs ⟨s.logsock, [], s.exited, []⟩ := by
  simp [frame]

/-- Calls of `on_data` on a non-empty read, and the forwarder state it leaves,
are those of a run from the bare forwarder state. -/
theorem on_data_core (sys : Sys) (fd : Int) (dat : List Nat) (s : Daemon) (chunk : List Nat)
    (hread : sys.read = ReadRes.bytes chunk) (hne : chunk ≠ []) :
    on_data sys fd dat s
      = frame s.trace s.regs (on_data sys fd dat ⟨s.logsock, [], s.exited, []⟩) := by
  conv_lhs => rw [frame_self s]
  exact on_data_frame sys fd dat _ _ _ chunk hread hne

theorem callsOf_frame (f : Daemon → Daemon) (s r : Daemon)
    (h : f s = frame s.trace s.regs r) : callsOf f s = r.trace := by
  simp [callsOf, h, frame]

/-- With the forwarder disconnected the loop does nothing. -/
theorem forward_disconnected (sys : Sys) (hdr : List Nat) (fuel i : Nat)
    (cur : Option (List Nat × List Nat)) (s : Daemon) (h : s.logsock < 0) :
    forward sys hdr fuel i cur s = s := by
  have h2 : ¬ s.logsock ≥ 0 := not_le.mpr h
  cases fuel with
  | zero => simp [forward]
  | succ n =>
    cases cur with
    | none => simp [forward]
    | some p => simp [forward, h2]

/-- With the forwarder connected and every send succeeding, the loop sends the
tokens one by one. -/
theorem forward_all_ok (sys : Sys) (hdr : List Nat) (hsend : ∀ j, sys.sendmsg j = SendRes.ok) :
    ∀ (fuel i : Nat) (cur : Option (List Nat × List Nat)) (s : Daemon), 0 ≤ s.logsock →
      forward sys hdr fuel i cur s =
        { s with trace := s.trace ++
            (tokens fuel cur).map (fun r => Event.sendmsg s.logsock hdr r SendRes.ok) } := by
  intro fuel
  induction fuel with
  | zero => intro i cur s _; simp [forward, tokens]
  | succ n ih =>
    intro i cur s hs
    cases cur with
    | none => simp [forward, tokens]
    | some p =>
      obtain ⟨tok, rest⟩ := p
      have hs2 : s.logsock ≥ 0 := hs
      simp only [forward, hs2, if_true, hsend, tokens]
      rw [ih (i + 1) (strtok rest) _ (by simpa [emit] using hs)]
      simp [emit]

/-- The loop up to the first failing send: the tokens in front of it are sent,
the failing one is attempted, and nothing is attempted afterwards. -/
theorem forward_first_failure (sys : Sys) (hdr : List Nat) (errno : Nat) :
    ∀ (fuel i k : Nat) (cur : Option (List Nat × List Nat)) (s : Daemon) (r : List Nat),
      0 ≤ s.logsock → (tokens fuel cur)[k]? = some r →
      (∀ j, j < k → sys.sendmsg (i + j) = SendRes.ok) →
      sys.sendmsg (i + k) = SendRes.fail errno →
      forward sys hdr fuel i cur s =
        (let s1 : Daemon := { s with trace := s.trace ++
            ((tokens fuel cur).take k).map (fun r => Event.sendmsg s.logsock hdr r SendRes.ok)
            ++ [Event.sendmsg s.logsock hdr r (SendRes.fail errno)] }
         if errno = EAGAIN then s1 else disconnected_logsock (mylog LOG_WARNING s1)) := by
  intro fuel
  induction fuel with
  | zero => intro i k cur s r _ hk; simp [tokens] at hk
  | succ n ih =>
    intro i k cur s r hs hk hok hfail
    cases cur with
    | none => simp [tokens] at hk
    | some p =>
      obtain ⟨tok, rest⟩ := p
      have hs2 : s.logsock ≥ 0 := hs
      cases k with
      | zero =>
        simp only [tokens, List.getElem?_cons_zero, Option.some.injEq] at hk
        subst hk
        simp only [Nat.add_zero] at hfail
        simp [forward, hs2, hfail, emit]
      | succ k =>
        simp only [tokens, List.getElem?_cons_succ] at hk
        have h0 : sys.sendmsg i = SendRes.ok := by simpa using hok 0 (Nat.succ_pos k)
        simp only [forward, hs2, if_true, h0, tokens]
        rw [ih (i + 1) k (strtok rest) _ r (by simpa [emit] using hs) hk
          (fun j hj => by
            have := hok (j + 1) (Nat.succ_lt_succ hj)
            rwa [show i + (j + 1) = i + 1 + j by omega] at this)
          (by rwa [show i + (k + 1) = i + 1 + k by omega] at hfail)]
        simp [emit]

/-! ## Lemmas on traces -/

theorem sendCalls_append (a b : List Event) :
    sendCalls (a ++ b) = sendCalls a ++ sendCalls b := by
  induction a with
  | nil => rfl
  | cons e t ih => cases e <;> simp [sendCalls, ih]

theorem sentBodies_append (a b : List Event) :
    sentBodies (a ++ b) = sentBodies a ++ sentBodies b := by
  induction a with
  | nil => rfl
  | cons e t ih =>
    cases e with
    | sendmsg sock hdr body res => cases res <;> simp [sentBodies, ih]
    | _ => simp [sentBodies, ih]

theorem socketCalls_append (a b : List Event) :
    socketCalls (a ++ b) = socketCalls a ++ socketCalls b := by
  induction a with
  | nil => rfl
  | cons e t ih => cases e <;> simp [socketCalls, ih]

theorem sentBodies_map_ok (sock : Int) (hdr : List Nat) (l : List (List Nat)) :
    sentBodies (l.map (fun r => Event.sendmsg sock hdr r SendRes.ok)) = l := by
  induction l with
  | nil => rfl
  | cons r t ih => simp [sentBodies, ih]

theorem sendCalls_map (sock : Int) (hdr : List Nat) (res : SendRes) (l : List (List Nat)) :
    sendCalls (l.map (fun r => Event.sendmsg sock hdr r res))
      = l.map (fun r => (sock, hdr, r, res)) := by
  induction l with
  | nil => rfl
  | cons r t ih => simp [sendCalls, ih]

theorem socketCalls_map (sock : Int) (hdr : List Nat) (res : SendRes) (l : List (List Nat)) :
    socketCalls (l.map (fun r => Event.sendmsg sock hdr r res)) = [] := by
  induction l with
  | nil => rfl
  | cons r t ih => simp [socketCalls, ih]

theorem sentBodies_of_no_sendCalls (l : List Event) (h : sendCalls l = []) :
    sentBodies l = [] := by
  induction l with
  | nil => rfl
  | cons e t ih =>
    cases e with
    | sendmsg a b c d => simp [sendCalls] at h
    | _ => simpa [sentBodies, sendCalls] using ih (by simpa [sendCalls] using h)

/-- No piece of a split contains a separator. -/
theorem splitOnP_no_delim (l : List Nat) :
    ∀ seg ∈ l.splitOnP isDelim, ∀ c ∈ seg, isDelim c = false := by
  induction l with
  | nil => simp
  | cons a t ih =>
    intro seg hseg c hc
    rw [List.splitOnP_cons] at hseg
    by_cases ha : isDelim a = true
    · simp only [ha, if_true, List.mem_cons] at hseg
      rcases hseg with h | h
      · subst h; simp at hc
      · exact ih seg h c hc
    · simp only [ha] at hseg
      cases hS : t.splitOnP isDelim with
      | nil => exact absurd hS (List.splitOnP_ne_nil _ _)
      | cons x rest =>
        rw [hS] at hseg ih
        simp only [Bool.false_eq_true, if_false, List.modifyHead, List.mem_cons] at hseg
        rcases hseg with h | h
        · subst h
          simp only [List.mem_cons] at hc
          rcases hc with h2 | h2
          · subst h2; simpa using ha
          · exact ih x (List.mem_cons_self _ _) c h2
        · exact ih seg (List.mem_cons_of_mem _ h) c hc

/-- Segments are non-empty and free of CR and LF. -/
theorem segments_spec (chunk : List Nat) :
    ∀ r ∈ segments chunk, r ≠ [] ∧ 13 ∉ r ∧ 10 ∉ r := by
  intro r hr
  simp only [segments, List.mem_filter] at hr
  obtain ⟨hmem, hne⟩ := hr
  refine ⟨by simpa using hne, ?_, ?_⟩
  · intro h
    have := splitOnP_no_delim chunk r hmem 13 h
    simp [isDelim] at this
  · intro h
    have := splitOnP_no_delim chunk r hmem 10 h
    simp [isDelim] at this

/-- With the forwarder connected, `connect_logsock` does nothing and `on_data`
enters its loop at once. -/
theorem on_data_connected (sys : Sys) (fd : Int) (dat : List Nat) (s : Daemon) (chunk : List Nat)
    (hread : sys.read = ReadRes.bytes chunk) (hne : chunk ≠ [])
    (hconn : 0 ≤ s.logsock) (hrun : s.exited = false) :
    on_data sys fd dat s
      = forward sys (header sys.time dat) (chunk ++ [0]).length 0 (strtok (chunk ++ [0])) s := by
  unfold on_data
  have hlen : ¬ chunk.length = 0 := by simpa using hne
  have hc : s.logsock ≥ 0 := hconn
  simp [hread, hlen, connect_logsock, hc, andThen, hrun]

/-- The header is never cut by the buffer when time string and tag are strings
of at most 127 bytes. -/
theorem header_exact (ts tag : List Nat) (hts0 : ∀ c ∈ ts, c ≠ 0)
    (hts : ts.length < sizeof_timestr) (htag0 : ∀ c ∈ tag, c ≠ 0)
    (htag : tag.length < sizeof_text) :
    header ts tag = ascii "<181>" ++ ts ++ ascii " " ++ tag ++ ascii ": " := by
  have h181 : [60] ++ fmtU (LOG_NOTICE ||| LOG_LOCAL6) ++ [62] = ascii "<181>" := by decide
  have hsp : ascii " " = [32] := by decide
  have hcol : ascii ": " = [58, 32] := by decide
  have h5 : (ascii "<181>").length = 5 := by decide
  unfold header snprintf
  rw [h181, cstr_eq_self hts0, cstr_eq_self htag0, hsp, hcol]
  apply List.take_of_length_le
  simp only [sizeof_timestr, sizeof_text] at hts htag
  simp only [List.length_append, h5, List.length_cons, List.length_nil, sizeof_hdr]
  omega

/-- Calls of `connect_logsock`: no message is sent; one `socket` call is made
exactly when the forwarder is disconnected. -/
theorem connect_logsock_calls (sys : Sys) (s : Daemon) :
    ∃ new, (connect_logsock sys s).trace = s.trace ++ new ∧ sendCalls new = [] ∧
      socketCalls new = (if 0 ≤ s.logsock then [] else [sys.socket]) := by
  unfold connect_logsock
  by_cases h : s.logsock ≥ 0
  · exact ⟨[], by simp [h, sendCalls, socketCalls]⟩
  · have h2 : ¬ 0 ≤ s.logsock := h
    simp only [h, h2, if_false]
    by_cases hx : s.exited = true <;> by_cases hs : sys.socket < 0 <;>
      by_cases hc : sys.connect < 0 <;> by_cases hcl : sys.close < 0 <;>
      simp [hx, hs, hc, hcl, andThen, mylog, emit, LOG_ERR, LOG_NOTICE, sendCalls, socketCalls]

/-- Calls of the loop: no `socket` call, and every `sendmsg` goes to `logsock`
with the given header and a token as record part. -/
theorem forward_calls (sys : Sys) (hdr : List Nat) :
    ∀ (fuel i : Nat) (cur : Option (List Nat × List Nat)) (s : Daemon),
      ∃ new, (forward sys hdr fuel i cur s).trace = s.trace ++ new ∧ socketCalls new = [] ∧
        ∀ q ∈ sendCalls new, q.1 = s.logsock ∧ q.2.1 = hdr ∧ q.2.2.1 ∈ tokens fuel cur := by
  intro fuel
  induction fuel with
  | zero => intro i cur s; exact ⟨[], by simp [forward, socketCalls, sendCalls]⟩
  | succ n ih =>
    intro i cur s
    cases cur with
    | none => exact ⟨[], by simp [forward, socketCalls, sendCalls]⟩
    | some p =>
      obtain ⟨tok, rest⟩ := p
      by_cases h : s.logsock ≥ 0
      · simp only [forward, h, if_true, tokens]
        cases hres : sys.sendmsg i with
        | ok =>
          obtain ⟨new, hnew, hsock, hsend⟩ := ih (i + 1) (strtok rest)
            (emit (Event.sendmsg s.logsock hdr tok SendRes.ok) s)
          refine ⟨Event.sendmsg s.logsock hdr tok SendRes.ok :: new, ?_, ?_, ?_⟩
          · simp only [hnew]
            simp [emit]
          · simpa [socketCalls] using hsock
          · intro q hq
            simp only [sendCalls, List.mem_cons] at hq
            rcases hq with hq | hq
            · subst hq; simp
            · have := hsend q hq
              simp only [emit] at this
              exact ⟨this.1, this.2.1, List.mem_cons_of_mem _ this.2.2⟩
        | fail errno =>
          by_cases he : errno = EAGAIN
          · refine ⟨[Event.sendmsg s.logsock hdr tok (SendRes.fail errno)], ?_, ?_, ?_⟩
            · simp [he, emit]
            · simp [socketCalls]
            · intro q hq
              simp only [sendCalls, List.mem_singleton] at hq
              subst hq; simp
          · refine ⟨[Event.sendmsg s.logsock hdr tok (SendRes.fail errno),
              Event.syslog LOG_WARNING, Event.syslog LOG_NOTICE], ?_, ?_, ?_⟩
            · simp [he, emit, mylog, disconnected_logsock, LOG_WARNING, LOG_NOTICE, LOG_ERR]
            · simp [socketCalls]
            · intro q hq
              simp only [sendCalls, List.mem_singleton] at hq
              subst hq; simp
      · exact ⟨[], by simp [forward, h, socketCalls, sendCalls]⟩

/-- Calls of `on_data` on a non-empty read: at most one connect attempt, made
exactly when the forwarder is disconnected, and every message carries the
header of the stream and one record of the chunk. -/
theorem on_data_calls (sys : Sys) (fd : Int) (dat : List Nat) (s : Daemon) (chunk : List Nat)
    (hread : sys.read = ReadRes.bytes chunk) (hne : chunk ≠ []) :
    socketCalls (callsOf (on_data sys fd dat) s) = (if 0 ≤ s.logsock then [] else [sys.socket]) ∧
      ∀ q ∈ sendCalls (callsOf (on_data sys fd dat) s),
        q.1 = (connect_logsock sys s).logsock ∧ q.2.1 = header sys.time dat ∧
          q.2.2.1 ∈ records chunk := by
  have hlen : ¬ chunk.length = 0 := by simpa using hne
  obtain ⟨n1, h1, hs1, hk1⟩ := connect_logsock_calls sys s
  by_cases hx : (connect_logsock sys s).exited = true
  · have htr : (on_data sys fd dat s).trace = s.trace ++ n1 := by
      simp [on_data, hread, hlen, andThen, hx, h1]
    simp [callsOf, htr, hs1, hk1]
  · obtain ⟨n2, h2, hs2, hk2⟩ := forward_calls sys (header sys.time dat) (chunk ++ [0]).length 0
      (strtok (chunk ++ [0])) (connect_logsock sys s)
    have htr : (on_data sys fd dat s).trace = s.trace ++ (n1 ++ n2) := by
      simp only [on_data, hread, hlen, if_false, andThen, hx, Bool.false_eq_true]
      rw [h2, h1, List.append_assoc]
    simp only [callsOf, htr, List.drop_left, socketCalls_append, sendCalls_append, hs1, hs2,
      hk1, List.append_nil, List.nil_append, true_and]
    exact hk2

/-- No message is sent on end-of-stream or on a read error. -/
theorem on_data_no_chunk (sys : Sys) (fd : Int) (dat : List Nat) (s : Daemon)
    (hread : ∀ chunk, sys.read = ReadRes.bytes chunk → chunk = []) :
    sendCalls (callsOf (on_data sys fd dat) s) = [] ∧
      socketCalls (callsOf (on_data sys fd dat) s) = [] := by
  unfold callsOf on_data
  cases hr : sys.read with
  | error e => simp [mylog, emit, LOG_ERR, sendCalls, socketCalls]
  | bytes chunk =>
    have := hread chunk hr
    subst this
    by_cases hx : s.exited = true <;> by_cases hcl : sys.close < 0 <;>
      simp [hx, hcl, andThen, mylog, emit, libe_remove_fd, LOG_ERR, LOG_NOTICE, sendCalls,
        socketCalls]

/-- A connect that leaves the forwarder connected has not terminated the
process. -/
theorem connect_logsock_running (sys : Sys) (s : Daemon) (hrun : s.exited = false)
    (hconn : 0 ≤ (connect_logsock sys s).logsock) :
    (connect_logsock sys s).exited = false := by
  by_cases h : s.logsock ≥ 0
  · simpa [connect_logsock, h] using hrun
  · by_cases hs : sys.socket < 0
    · simp [connect_logsock, h, hs, andThen, mylog, emit, LOG_ERR] at hconn
    · by_cases hc : sys.connect < 0
      · by_cases hcl : sys.close < 0
        · simp [connect_logsock, h, hs, hc, hcl, andThen, mylog, emit, LOG_ERR, hrun] at hconn
        · simp [connect_logsock, h, hs, hc, hcl, andThen, mylog, emit, LOG_ERR, hrun] at hconn
      · simp [connect_logsock, h, hs, hc, andThen, mylog, emit, LOG_ERR, LOG_NOTICE, hrun]

/-- The call of `on_data` whose `k`-th send is the first to fail. -/
theorem on_data_first_failure (sys : Sys) (fd : Int) (dat : List Nat) (s : Daemon)
    (chunk : List Nat) (k : Nat) (r : List Nat) (errno : Nat)
    (hread : sys.read = ReadRes.bytes chunk) (hne : chunk ≠ [])
    (hrun : s.exited = false) (hconn : 0 ≤ (connect_logsock sys s).logsock)
    (hk : (records chunk)[k]? = some r)
    (hok : ∀ j, j < k → sys.sendmsg j = SendRes.ok)
    (hfail : sys.sendmsg k = SendRes.fail errno) :
    on_data sys fd dat s =
      (let c := connect_logsock sys s
       let hdr := header sys.time dat
       let s1 : Daemon := { c with trace := c.trace ++
          ((records chunk).take k).map (fun x => Event.sendmsg c.logsock hdr x SendRes.ok)
          ++ [Event.sendmsg c.logsock hdr r (SendRes.fail errno)] }
       if errno = EAGAIN then s1 else disconnected_logsock (mylog LOG_WARNING s1)) := by
  have hlen : ¬ chunk.length = 0 := by simpa using hne
  have hx := connect_logsock_running sys s hrun hconn
  have hk2 : (tokens (chunk ++ [0]).length (strtok (chunk ++ [0])))[k]? = some r := hk
  have hf := forward_first_failure sys (header sys.time dat) errno (chunk ++ [0]).length 0 k
    (strtok (chunk ++ [0])) (connect_logsock sys s) r hconn hk2
    (fun j hj => by simpa using hok j hj) (by simpa using hfail)
  have hod : on_data sys fd dat s = forward sys (header sys.time dat) (chunk ++ [0]).length 0
      (strtok (chunk ++ [0])) (connect_logsock sys s) := by
    simp only [on_data, hread, hlen, if_false, andThen, hx, Bool.false_eq_true]
  rw [hod, hf]
  rfl

theorem cstr_append_terminator (l : List Nat) : cstr (l ++ [0]) = cstr l := by
  induction l with
  | nil => simp [cstr]
  | cons a t ih =>
    by_cases ha : a = 0
    · simp [cstr, ha]
    · simp only [cstr] at ih ⊢
      simp [List.takeWhile_cons, ha, ih]

/-- Splitting a concatenation: the last piece of the first part and the first
piece of the second part are joined, all other pieces are kept. -/
theorem splitOnP_append_pieces (A B : List Nat) :
    ∃ pre last hd post, A.splitOnP isDelim = pre ++ [last] ∧
      B.splitOnP isDelim = hd :: post ∧
      (A ++ B).splitOnP isDelim = pre ++ [last ++ hd] ++ post := by
  induction A with
  | nil =>
    cases hB : B.splitOnP isDelim with
    | nil => exact absurd hB (List.splitOnP_ne_nil _ _)
    | cons hd post => exact ⟨[], [], hd, post, by simp, rfl, by simp [hB]⟩
  | cons a t ih =>
    obtain ⟨pre, last, hd, post, h1, h2, h3⟩ := ih
    by_cases ha : isDelim a = true
    · refine ⟨[] :: pre, last, hd, post, ?_, h2, ?_⟩
      · simp [List.splitOnP_cons, ha, h1]
      · simp [List.splitOnP_cons, ha, h3]
    · cases pre with
      | nil =>
        refine ⟨[], a :: last, hd, post, ?_, h2, ?_⟩
        · simp [List.splitOnP_cons, ha, h1, List.modifyHead]
        · simp only [List.cons_append, List.splitOnP_cons, ha]
          simp [h3, List.modifyHead]
      | cons x pre2 =>
        refine ⟨(a :: x) :: pre2, last, hd, post, ?_, h2, ?_⟩
        · simp [List.splitOnP_cons, ha, h1, List.modifyHead]
        · simp only [List.cons_append, List.splitOnP_cons, ha]
          simp [h3, List.modifyHead]

/-- Segments of a concatenation whose first part ends in text and whose second
part starts with text: the segment across the boundary is the concatenation of
the last segment of the first part and the first segment of the second. -/
theorem segments_append_text (A B : List Nat) (a b : Nat)
    (hA : A.getLast? = some a) (ha : isDelim a = false)
    (hB : B.head? = some b) (hb : isDelim b = false) :
    ∃ pre last hd post, segments A = pre ++ [last] ∧ segments B = hd :: post ∧
      segments (A ++ B) = pre ++ [last ++ hd] ++ post := by
  obtain ⟨pre, last, hd, post, h1, h2, h3⟩ := splitOnP_append_pieces A B
  have hlast : last ≠ [] := by
    obtain ⟨A0, rfl⟩ := List.getLast?_eq_some_iff.mp hA
    obtain ⟨pre0, last0, hd0, post0, g1, g2, g3⟩ := splitOnP_append_pieces A0 [a]
    have hs : [a].splitOnP isDelim = [[a]] := by
      simp [List.splitOnP_cons, ha, List.modifyHead]
    rw [hs] at g2
    simp only [List.cons.injEq] at g2
    obtain ⟨rfl, rfl⟩ := g2
    rw [g3, List.append_nil] at h1
    have := (List.append_inj' h1 rfl).2
    simp only [List.cons.injEq, and_true] at this
    intro hl
    rw [hl] at this
    simp at this
  have hhd : hd ≠ [] := by
    obtain ⟨B0, rfl⟩ := List.head?_eq_some_iff.mp hB
    rw [List.splitOnP_cons] at h2
    simp only [hb, Bool.false_eq_true, if_false] at h2
    cases hS : B0.splitOnP isDelim with
    | nil => exact absurd hS (List.splitOnP_ne_nil _ _)
    | cons x rest =>
      rw [hS] at h2
      simp only [List.modifyHead, List.cons.injEq] at h2
      rw [← h2.1]
      simp
  have hcat : last ++ hd ≠ [] := by simp [hlast]
  refine ⟨pre.filter (fun seg => !seg.isEmpty), last, hd,
    post.filter (fun seg => !seg.isEmpty), ?_, ?_, ?_⟩
  · simp [segments, h1, List.filter_cons, hlast]
  · simp [segments, h2, List.filter_cons, hhd]
  · simp [segments, h3, List.filter_cons, hlast]

/-! ## Claims -/

/-- C1, counterexample: the chunk `a NUL b LF c` holds two non-empty CR/LF-delimited
segments, yet `on_data` sends a single message, whose record part is `a`. -/
theorem on_data_nul_chunk_counterexample :
    (segments [97, 0, 98, 10, 99]).length = 2 ∧
      sentBodies (callsOf
        (on_data (sysOk (ReadRes.bytes [97, 0, 98, 10, 99]) exTime 5) 7 (ascii "build"))
        exConnected) = [[97]] := by
  decide

/-- C1, amended: for every non-empty chunk without NUL byte, read while the
forwarder is connected and with every send succeeding, `on_data` sends exactly
one message per non-empty CR/LF-delimited segment, in order, the record part
being the segment; no record part is empty or contains CR or LF. -/
theorem on_data_sends_segments (sys : Sys) (fd : Int) (dat : List Nat) (s : Daemon)
    (chunk : List Nat)
    (hread : sys.read = ReadRes.bytes chunk) (hne : chunk ≠ [])
    (hnul : ∀ c ∈ chunk, c ≠ 0)
    (hconn : 0 ≤ s.logsock) (hrun : s.exited = false)
    (hsend : ∀ j, sys.sendmsg j = SendRes.ok) :
    callsOf (on_data sys fd dat) s =
        (segments chunk).map
          (fun r => Event.sendmsg s.logsock (header sys.time dat) r SendRes.ok) ∧
      sentBodies (callsOf (on_data sys fd dat) s) = segments chunk ∧
      (sendCalls (callsOf (on_data sys fd dat) s)).length = (segments chunk).length ∧
      ∀ r ∈ sentBodies (callsOf (on_data sys fd dat) s), r ≠ [] ∧ 13 ∉ r ∧ 10 ∉ r := by
  have hcalls : callsOf (on_data sys fd dat) s =
      (segments chunk).map
        (fun r => Event.sendmsg s.logsock (header sys.time dat) r SendRes.ok) := by
    unfold callsOf
    rw [on_data_connected sys fd dat s chunk hread hne hconn hrun,
      forward_all_ok sys _ hsend _ _ _ s hconn]
    have := records_eq_segments hnul
    unfold records at this
    rw [this]
    simp
  refine ⟨hcalls, ?_, ?_, ?_⟩
  · rw [hcalls, sentBodies_map_ok]
  · rw [hcalls, sendCalls_map, List.length_map]
  · rw [hcalls, sentBodies_map_ok]
    exact segments_spec chunk

/-- C1, amended, at the chunk `step1 CR LF LF step2 LF`. -/
theorem on_data_sends_segments_witness :
    sentBodies (callsOf
        (on_data (sysOk (ReadRes.bytes (ascii "step1\r\n\nstep2\n")) exTime 5) 7 (ascii "build"))
        exConnected) = [ascii "step1", ascii "step2"] :=
  (on_data_sends_segments (sysOk (ReadRes.bytes (ascii "step1\r\n\nstep2\n")) exTime 5) 7
    (ascii "build") exConnected (ascii "step1\r\n\nstep2\n") rfl (by decide) (by decide)
    (by decide) rfl (fun _ => rfl)).2.1.trans (by decide)

/-- C2: for every tag and time string that are strings of at most 127 bytes (they
fit the 128-byte buffers `text` and `timestr` with their terminator), every
message that `on_data` sends has the header `<181>TIMESTAMP TAG: `,
uncut by the 1024-byte buffer, and one record of the chunk as second part; with
the forwarder connected and all sends succeeding these are the records in
order.  181 is facility 22 times 8 plus severity 5, and the chunk
`step1 LF step2 LF` has the records `step1` and `step2`. -/
theorem on_data_message_format (sys : Sys) (fd : Int) (tag : List Nat) (s : Daemon)
    (chunk : List Nat)
    (hread : sys.read = ReadRes.bytes chunk)
    (htag0 : ∀ c ∈ tag, c ≠ 0) (htag : tag.length < sizeof_text)
    (hts0 : ∀ c ∈ sys.time, c ≠ 0) (hts : sys.time.length < sizeof_timestr) :
    (∀ q ∈ sendCalls (callsOf (on_data sys fd tag) s),
        q.2.1 = ascii "<181>" ++ sys.time ++ ascii " " ++ tag ++ ascii ": " ∧
          q.2.2.1 ∈ records chunk) ∧
      (0 ≤ s.logsock → s.exited = false → (∀ j, sys.sendmsg j = SendRes.ok) →
        sendCalls (callsOf (on_data sys fd tag) s) =
          (records chunk).map (fun r =>
            (s.logsock, ascii "<181>" ++ sys.time ++ ascii " " ++ tag ++ ascii ": ", r,
              SendRes.ok))) ∧
      (ascii "<181>" ++ sys.time ++ ascii " " ++ tag ++ ascii ": ").length < sizeof_hdr ∧
      (LOG_NOTICE ||| LOG_LOCAL6) = 22 * 8 + 5 ∧ fmtU (22 * 8 + 5) = ascii "181" ∧
      records (ascii "step1\nstep2\n") = [ascii "step1", ascii "step2"] := by
  have hhdr := header_exact sys.time tag hts0 hts htag0 htag
  refine ⟨?_, ?_, ?_, by decide, by decide, by decide⟩
  · intro q hq
    by_cases hne : chunk = []
    · subst hne
      rw [(on_data_no_chunk sys fd tag s (fun c hc => by rw [hread] at hc; cases hc; rfl)).1]
        at hq
      cases hq
    · have := (on_data_calls sys fd tag s chunk hread hne).2 q hq
      exact ⟨this.2.1.trans hhdr, this.2.2⟩
  · intro hconn hrun hsend
    by_cases hne : chunk = []
    · subst hne
      rw [(on_data_no_chunk sys fd tag s (fun c hc => by rw [hread] at hc; cases hc; rfl)).1]
      rfl
    · unfold callsOf
      rw [on_data_connected sys fd tag s chunk hread hne hconn hrun,
        forward_all_ok sys _ hsend _ _ _ s hconn, hhdr]
      simp only [List.drop_left, sendCalls_map]
      rfl
  · have h5 : (ascii "<181>").length = 5 := by decide
    have h1 : (ascii " ").length = 1 := by decide
    have h2 : (ascii ": ").length = 2 := by decide
    simp only [sizeof_timestr, sizeof_text] at hts htag
    simp only [List.length_append, h5, h1, h2, sizeof_hdr]
    omega

/-- C2 at tag `build` and chunk `step1 LF step2 LF`: two messages with header
`<181>Oct 31 12:00:00 build: ` and record parts `step1` and `step2`. -/
theorem on_data_message_format_witness :
    sendCalls (callsOf
        (on_data (sysOk (ReadRes.bytes (ascii "step1\nstep2\n")) exTime 5) 7 (ascii "build"))
        exConnected) =
      [(5, ascii "<181>Oct 31 12:00:00 build: ", ascii "step1", SendRes.ok),
       (5, ascii "<181>Oct 31 12:00:00 build: ", ascii "step2", SendRes.ok)] :=
  ((on_data_message_format (sysOk (ReadRes.bytes (ascii "step1\nstep2\n")) exTime 5) 7
    (ascii "build") exConnected (ascii "step1\nstep2\n") rfl (by decide) (by decide)
    (by decide) (by decide)).2.1 (by decide) rfl (fun _ => rfl)).trans (by decide)

/-- C3: when the forwarder is connected for the loop, the sends of the first `k`
records succeed and the send of the next record `r` fails with `EAGAIN`, then
`on_data` has sent exactly the first `k` records, attempts `r` and nothing after
it, and leaves the forwarder running and connected on the same descriptor; a
later chunk is sent over that descriptor without any connect attempt. -/
theorem on_data_would_block (sys : Sys) (fd : Int) (dat : List Nat) (s : Daemon)
    (chunk : List Nat) (k : Nat) (r : List Nat)
    (hread : sys.read = ReadRes.bytes chunk) (hne : chunk ≠ [])
    (hrun : s.exited = false) (hconn : 0 ≤ (connect_logsock sys s).logsock)
    (hk : (records chunk)[k]? = some r)
    (hok : ∀ j, j < k → sys.sendmsg j = SendRes.ok)
    (hfail : sys.sendmsg k = SendRes.fail EAGAIN) :
    sendCalls (callsOf (on_data sys fd dat) s) =
        ((records chunk).take k).map (fun x =>
          ((connect_logsock sys s).logsock, header sys.time dat, x, SendRes.ok))
        ++ [((connect_logsock sys s).logsock, header sys.time dat, r, SendRes.fail EAGAIN)] ∧
      sentBodies (callsOf (on_data sys fd dat) s) = (records chunk).take k ∧
      (on_data sys fd dat s).logsock = (connect_logsock sys s).logsock ∧
      0 ≤ (on_data sys fd dat s).logsock ∧
      (on_data sys fd dat s).exited = false ∧
      ∀ (sys2 : Sys) (fd2 : Int) (dat2 chunk2 : List Nat),
        sys2.read = ReadRes.bytes chunk2 → chunk2 ≠ [] →
        socketCalls (callsOf (on_data sys2 fd2 dat2) (on_data sys fd dat s)) = [] ∧
        (∀ q ∈ sendCalls (callsOf (on_data sys2 fd2 dat2) (on_data sys fd dat s)),
          q.1 = (connect_logsock sys s).logsock) ∧
        ((∀ j, sys2.sendmsg j = SendRes.ok) →
          callsOf (on_data sys2 fd2 dat2) (on_data sys fd dat s) =
            (records chunk2).map (fun x => Event.sendmsg (connect_logsock sys s).logsock
              (header sys2.time dat2) x SendRes.ok)) := by
  have hod := on_data_first_failure sys fd dat s chunk k r EAGAIN hread hne hrun hconn hk hok hfail
  simp only [if_true] at hod
  obtain ⟨n1, h1, hs1, _⟩ := connect_logsock_calls sys s
  have hx := connect_logsock_running sys s hrun hconn
  have hls : (on_data sys fd dat s).logsock = (connect_logsock sys s).logsock := by rw [hod]
  have hex : (on_data sys fd dat s).exited = false := by rw [hod]; exact hx
  have hcalls : callsOf (on_data sys fd dat) s = n1 ++
      (((records chunk).take k).map (fun x => Event.sendmsg (connect_logsock sys s).logsock
          (header sys.time dat) x SendRes.ok)
        ++ [Event.sendmsg (connect_logsock sys s).logsock (header sys.time dat) r
          (SendRes.fail EAGAIN)]) := by
    unfold callsOf
    rw [hod]
    simp only [h1, List.append_assoc, List.drop_left]
  have hbod : sentBodies n1 = [] := sentBodies_of_no_sendCalls n1 hs1
  refine ⟨?_, ?_, hls, hls ▸ hconn, hex, ?_⟩
  · rw [hcalls, sendCalls_append, sendCalls_append, hs1, sendCalls_map]
    simp [sendCalls]
  · rw [hcalls, sentBodies_append, sentBodies_append, hbod, sentBodies_map_ok]
    simp [sentBodies]
  · intro sys2 fd2 dat2 chunk2 hread2 hne2
    have hc2 : 0 ≤ (on_data sys fd dat s).logsock := hls ▸ hconn
    have hcalls2 := on_data_calls sys2 fd2 dat2 (on_data sys fd dat s) chunk2 hread2 hne2
    have hnoop : connect_logsock sys2 (on_data sys fd dat s) = on_data sys fd dat s := by
      have : (on_data sys fd dat s).logsock ≥ 0 := hc2
      simp [connect_logsock, this]
    refine ⟨by simpa [hc2] using hcalls2.1, ?_, ?_⟩
    · intro q hq
      have := (hcalls2.2 q hq).1
      rw [hnoop, hls] at this
      exact this
    · intro hsend2
      unfold callsOf
      rw [on_data_connected sys2 fd2 dat2 _ chunk2 hread2 hne2 hc2 hex,
        forward_all_ok sys2 _ hsend2 _ _ _ _ hc2, hls]
      simp only [List.drop_left]
      rfl

/-- C3 at the chunk `a LF b LF c LF` whose second send would block: `a` is sent,
`b` is attempted, `c` is not, and the forwarder stays connected on descriptor 5. -/
theorem on_data_would_block_witness :
    sentBodies (callsOf
        (on_data (sysSendFails (ReadRes.bytes (ascii "a\nb\nc\n")) exTime 6 1 EAGAIN) 7
          (ascii "build")) exConnected) = [ascii "a"] ∧
      (on_data (sysSendFails (ReadRes.bytes (ascii "a\nb\nc\n")) exTime 6 1 EAGAIN) 7
        (ascii "build") exConnected).logsock = 5 :=
  have h := on_data_would_block (sysSendFails (ReadRes.bytes (ascii "a\nb\nc\n")) exTime 6 1 EAGAIN)
    7 (ascii "build") exConnected (ascii "a\nb\nc\n") 1 (ascii "b") rfl (by decide) rfl
    (by decide) (by decide) (fun j hj => by interval_cases j; rfl) rfl
  ⟨h.2.1.trans (by decide), h.2.2.1.trans (by decide)⟩

/-- C4, counterexample: after a send failed with `ECONNREFUSED` the forwarder is
disconnected, and the next call of `on_data`, which reads end-of-stream, makes no
connect attempt. -/
theorem on_data_eof_after_failure_counterexample :
    exAfterFailure.logsock = -1 ∧ exAfterFailure.exited = false ∧
      socketCalls (callsOf (on_data (sysOk (ReadRes.bytes []) exTime 6) 7 (ascii "build"))
        exAfterFailure) = [] := by
  decide

/-- C4, amended: when the forwarder is connected for the loop, the sends of the
first `k` records succeed and the send of the next record `r` fails with an error
other than `EAGAIN`, then `on_data` has sent exactly the first `k` records,
attempts `r` and nothing after it, leaves the forwarder disconnected and the
daemon running; the next call of `on_data` that reads a non-empty chunk makes
exactly one new connect attempt. -/
theorem on_data_send_error (sys : Sys) (fd : Int) (dat : List Nat) (s : Daemon)
    (chunk : List Nat) (k : Nat) (r : List Nat) (errno : Nat)
    (hread : sys.read = ReadRes.bytes chunk) (hne : chunk ≠ [])
    (hrun : s.exited = false) (hconn : 0 ≤ (connect_logsock sys s).logsock)
    (hk : (records chunk)[k]? = some r)
    (hok : ∀ j, j < k → sys.sendmsg j = SendRes.ok)
    (hfail : sys.sendmsg k = SendRes.fail errno) (herr : errno ≠ EAGAIN) :
    sendCalls (callsOf (on_data sys fd dat) s) =
        ((records chunk).take k).map (fun x =>
          ((connect_logsock sys s).logsock, header sys.time dat, x, SendRes.ok))
        ++ [((connect_logsock sys s).logsock, header sys.time dat, r, SendRes.fail errno)] ∧
      sentBodies (callsOf (on_data sys fd dat) s) = (records chunk).take k ∧
      (on_data sys fd dat s).logsock = -1 ∧
      (on_data sys fd dat s).exited = false ∧
      ∀ (sys2 : Sys) (fd2 : Int) (dat2 chunk2 : List Nat),
        sys2.read = ReadRes.bytes chunk2 → chunk2 ≠ [] →
        socketCalls (callsOf (on_data sys2 fd2 dat2) (on_data sys fd dat s)) = [sys2.socket] := by
  have hod := on_data_first_failure sys fd dat s chunk k r errno hread hne hrun hconn hk hok hfail
  simp only [herr, if_false] at hod
  obtain ⟨n1, h1, hs1, _⟩ := connect_logsock_calls sys s
  have hx := connect_logsock_running sys s hrun hconn
  have hls : (on_data sys fd dat s).logsock = -1 := by
    rw [hod]; simp [disconnected_logsock]
  have hex : (on_data sys fd dat s).exited = false := by
    rw [hod]; simp [disconnected_logsock, mylog, emit, LOG_WARNING, LOG_NOTICE, LOG_ERR, hx]
  have hcalls : callsOf (on_data sys fd dat) s = n1 ++
      (((records chunk).take k).map (fun x => Event.sendmsg (connect_logsock sys s).logsock
          (header sys.time dat) x SendRes.ok)
        ++ [Event.sendmsg (connect_logsock sys s).logsock (header sys.time dat) r
          (SendRes.fail errno), Event.syslog LOG_WARNING, Event.syslog LOG_NOTICE]) := by
    unfold callsOf
    rw [hod]
    simp [disconnected_logsock, mylog, emit, LOG_WARNING, LOG_NOTICE, LOG_ERR, h1]
  have hbod : sentBodies n1 = [] := sentBodies_of_no_sendCalls n1 hs1
  refine ⟨?_, ?_, hls, hex, ?_⟩
  · rw [hcalls, sendCalls_append, sendCalls_append, hs1, sendCalls_map]
    simp [sendCalls]
  · rw [hcalls, sentBodies_append, sentBodies_append, hbod, sentBodies_map_ok]
    simp [sentBodies]
  · intro sys2 fd2 dat2 chunk2 hread2 hne2
    have := (on_data_calls sys2 fd2 dat2 (on_data sys fd dat s) chunk2 hread2 hne2).1
    rw [this, hls]
    rfl

/-- C4, amended, at the chunk `a LF b LF c LF` whose second send fails with
`ECONNREFUSED` (111): `a` is sent, the forwarder is disconnected, the daemon
runs. -/
theorem on_data_send_error_witness :
    sentBodies (callsOf
        (on_data (sysSendFails (ReadRes.bytes (ascii "a\nb\nc\n")) exTime 6 1 111) 7
          (ascii "build")) exConnected) = [ascii "a"] ∧
      (on_data (sysSendFails (ReadRes.bytes (ascii "a\nb\nc\n")) exTime 6 1 111) 7
        (ascii "build") exConnected).logsock = -1 ∧
      (on_data (sysSendFails (ReadRes.bytes (ascii "a\nb\nc\n")) exTime 6 1 111) 7
        (ascii "build") exConnected).exited = false :=
  have h := on_data_send_error (sysSendFails (ReadRes.bytes (ascii "a\nb\nc\n")) exTime 6 1 111)
    7 (ascii "build") exConnected (ascii "a\nb\nc\n") 1 (ascii "b") 111 rfl (by decide) rfl
    (by decide) (by decide) (fun j hj => by interval_cases j; rfl) rfl (by decide)
  ⟨h.2.1.trans (by decide), h.2.2.1, h.2.2.2.1⟩

/-- C5, counterexample: with the forwarder disconnected and `socket` failing, the
connect attempt of `on_data` terminates the daemon. -/
theorem on_data_socket_failure_counterexample :
    exDisconnected.logsock = -1 ∧ exDisconnected.exited = false ∧
      (on_data (sysConnect (ReadRes.bytes (ascii "a\n")) exTime (-1) 0 0) 7 (ascii "build")
        exDisconnected).exited = true := by
  decide

/-- C5, amended: on a non-empty chunk read while the forwarder is disconnected,
`on_data` makes exactly one connect attempt (and `connect_logsock` does nothing
on a connected forwarder).  When `connect` fails and the socket is closed
again, no message is sent, the forwarder stays disconnected and the daemon keeps
running; when `socket` fails, or that `close` fails, no message is sent and the
daemon terminates. -/
theorem on_data_connect_attempt (sys : Sys) (fd : Int) (dat : List Nat) (s : Daemon)
    (chunk : List Nat)
    (hread : sys.read = ReadRes.bytes chunk) (hne : chunk ≠ [])
    (hdis : s.logsock < 0) (hrun : s.exited = false) :
    socketCalls (callsOf (on_data sys fd dat) s) = [sys.socket] ∧
      (∀ t : Daemon, 0 ≤ t.logsock → connect_logsock sys t = t) ∧
      (0 ≤ sys.socket → sys.connect < 0 → 0 ≤ sys.close →
        callsOf (on_data sys fd dat) s =
            [Event.socket sys.socket, Event.connect sys.socket sys.connect,
              Event.close sys.socket sys.close] ∧
          (on_data sys fd dat s).logsock = s.logsock ∧
          (on_data sys fd dat s).exited = false ∧
          (on_data sys fd dat s).regs = s.regs) ∧
      (sys.socket < 0 →
        sendCalls (callsOf (on_data sys fd dat) s) = [] ∧
          (on_data sys fd dat s).exited = true) ∧
      (0 ≤ sys.socket → sys.connect < 0 → sys.close < 0 →
        sendCalls (callsOf (on_data sys fd dat) s) = [] ∧
          (on_data sys fd dat s).exited = true) := by
  have hlen : ¬ chunk.length = 0 := by simpa using hne
  have hd : ¬ s.logsock ≥ 0 := not_le.mpr hdis
  have hd2 : ¬ 0 ≤ s.logsock := not_le.mpr hdis
  refine ⟨?_, ?_, ?_, ?_, ?_⟩
  · rw [(on_data_calls sys fd dat s chunk hread hne).1]
    simp [hd2]
  · intro t ht
    have : t.logsock ≥ 0 := ht
    simp [connect_logsock, this]
  · intro hs hc hcl
    have hs2 : ¬ sys.socket < 0 := not_lt.mpr hs
    have hcl2 : ¬ sys.close < 0 := not_lt.mpr hcl
    have hod : on_data sys fd dat s = { s with trace := s.trace ++
        [Event.socket sys.socket, Event.connect sys.socket sys.connect,
          Event.close sys.socket sys.close] } := by
      simp only [on_data, hread, hlen, connect_logsock, hd, hs2, hc, hcl2, andThen, emit, hrun,
        if_false, if_true, Bool.false_eq_true]
      rw [forward_disconnected _ _ _ _ _ _ (by exact hdis)]
      simp
    refine ⟨?_, by rw [hod], by rw [hod]; exact hrun, by rw [hod]⟩
    unfold callsOf
    rw [hod]
    simp
  · intro hs
    have hod : on_data sys fd dat s = { s with exited := true, trace := s.trace ++
        [Event.socket sys.socket, Event.syslog LOG_ERR, Event.exit 1] } := by
      simp [on_data, hread, hlen, connect_logsock, hd, hs, andThen, emit, mylog, LOG_ERR]
    refine ⟨?_, by rw [hod]⟩
    unfold callsOf
    rw [hod]
    simp [sendCalls]
  · intro hs hc hcl
    have hs2 : ¬ sys.socket < 0 := not_lt.mpr hs
    have hod : on_data sys fd dat s = { s with exited := true, trace := s.trace ++
        [Event.socket sys.socket, Event.connect sys.socket sys.connect,
          Event.close sys.socket sys.close, Event.syslog LOG_ERR, Event.exit 1] } := by
      simp [on_data, hread, hlen, connect_logsock, hd, hs2, hc, hcl, andThen, emit, mylog,
        LOG_ERR, hrun]
    refine ⟨?_, by rw [hod]⟩
    unfold callsOf
    rw [hod]
    simp [sendCalls]

/-- C5, amended, at the chunk `a LF` with `connect` failing on socket 6: no
message, still disconnected, still running. -/
theorem on_data_connect_attempt_witness :
    socketCalls (callsOf
        (on_data (sysConnect (ReadRes.bytes (ascii "a\n")) exTime 6 (-1) 0) 7 (ascii "build"))
        exDisconnected) = [6] ∧
      (on_data (sysConnect (ReadRes.bytes (ascii "a\n")) exTime 6 (-1) 0) 7 (ascii "build")
        exDisconnected).logsock = -1 ∧
      (on_data (sysConnect (ReadRes.bytes (ascii "a\n")) exTime 6 (-1) 0) 7 (ascii "build")
        exDisconnected).exited = false :=
  have h := on_data_connect_attempt (sysConnect (ReadRes.bytes (ascii "a\n")) exTime 6 (-1) 0) 7
    (ascii "build") exDisconnected (ascii "a\n") rfl (by decide) (by decide) rfl
  have h3 := h.2.2.1 (by decide) (by decide) (by decide)
  ⟨h.1, h3.2.1, h3.2.2.1⟩

/-- C6, failing input: after a handoff, a read whose send fails and a further
read, two outbound sockets (5 and 6) are open at once: `disconnected_logsock`
forgets socket 5 without closing it, and the next read opens socket 6. -/
theorem outbound_socket_leak :
    openOutbound (run (main_init 3 4) exLeakEvents).trace [] = [5, 6] ∧
      (run (main_init 3 4) exLeakEvents).logsock = 6 ∧
      (run (main_init 3 4) exLeakEvents).exited = false := by
  decide

/-- C7, counterexample: on end-of-stream with `close` failing the daemon
terminates and the tag is never released. -/
theorem on_data_eof_close_failure_counterexample :
    (on_data (sysConnect (ReadRes.bytes []) exTime 6 0 (-1)) 7 (ascii "build")
        exConnected).exited = true ∧
      Event.free (ascii "build") ∉
        callsOf (on_data (sysConnect (ReadRes.bytes []) exTime 6 0 (-1)) 7 (ascii "build"))
          exConnected := by
  decide

/-- C7, amended: on end-of-stream, when `close` succeeds, `on_data` sends no
message, removes the registration of the descriptor, closes it and releases the
tag, each exactly once; afterwards the descriptor is not registered and no
callback runs for it; every registration of another descriptor, the forwarder
state and the running state are unchanged, and a later chunk on any stream is
forwarded exactly as it would have been without the teardown. -/
theorem on_data_eof (sys : Sys) (fd : Int) (dat : List Nat) (s : Daemon)
    (hread : sys.read = ReadRes.bytes []) (hrun : s.exited = false)
    (hclose : 0 ≤ sys.close) :
    callsOf (on_data sys fd dat) s =
        [Event.syslog LOG_NOTICE, Event.libe_remove_fd fd, Event.close fd sys.close,
          Event.free dat] ∧
      (on_data sys fd dat s).regs = s.regs.filter (fun r => r.fd != fd) ∧
      (∀ r ∈ (on_data sys fd dat s).regs, r.fd ≠ fd) ∧
      (∀ sys2 : Sys, dispatch fd sys2 (on_data sys fd dat s) = on_data sys fd dat s) ∧
      (∀ r ∈ s.regs, r.fd ≠ fd → r ∈ (on_data sys fd dat s).regs) ∧
      (on_data sys fd dat s).logsock = s.logsock ∧
      (on_data sys fd dat s).exited = false ∧
      ∀ (sys2 : Sys) (fd2 : Int) (dat2 chunk2 : List Nat),
        sys2.read = ReadRes.bytes chunk2 → chunk2 ≠ [] →
        callsOf (on_data sys2 fd2 dat2) (on_data sys fd dat s)
            = callsOf (on_data sys2 fd2 dat2) s ∧
          (on_data sys2 fd2 dat2 (on_data sys fd dat s)).logsock
            = (on_data sys2 fd2 dat2 s).logsock ∧
          (on_data sys2 fd2 dat2 (on_data sys fd dat s)).exited
            = (on_data sys2 fd2 dat2 s).exited := by
  have hcl : ¬ sys.close < 0 := not_lt.mpr hclose
  have hod : on_data sys fd dat s = { s with
      regs := s.regs.filter (fun r => r.fd != fd),
      trace := s.trace ++ [Event.syslog LOG_NOTICE, Event.libe_remove_fd fd,
        Event.close fd sys.close, Event.free dat] } := by
    simp [on_data, hread, hcl, andThen, mylog, emit, libe_remove_fd, LOG_NOTICE, LOG_ERR, hrun]
  have hregs : (on_data sys fd dat s).regs = s.regs.filter (fun r => r.fd != fd) := by rw [hod]
  have hls : (on_data sys fd dat s).logsock = s.logsock := by rw [hod]
  have hex : (on_data sys fd dat s).exited = false := by rw [hod]; exact hrun
  refine ⟨?_, hregs, ?_, ?_, ?_, hls, hex, ?_⟩
  · unfold callsOf
    rw [hod]
    simp
  · intro r hr
    rw [hregs] at hr
    simpa using (List.mem_filter.mp hr).2
  · intro sys2
    have hnone : (on_data sys fd dat s).regs.find? (fun r => r.fd == fd) = none := by
      rw [hregs, List.find?_eq_none]
      intro r hr
      simpa using (List.mem_filter.mp hr).2
    simp [dispatch, andThen, hex, hnone]
  · intro r hr hne
    rw [hregs]
    exact List.mem_filter.mpr ⟨hr, by simpa using hne⟩
  · intro sys2 fd2 dat2 chunk2 hread2 hne2
    have h1 := on_data_core sys2 fd2 dat2 (on_data sys fd dat s) chunk2 hread2 hne2
    have h2 := on_data_core sys2 fd2 dat2 s chunk2 hread2 hne2
    rw [hls, hex, ← hrun] at h1
    refine ⟨?_, ?_, ?_⟩
    · rw [callsOf_frame _ _ _ h1, callsOf_frame _ _ _ h2]
    · rw [h1, h2]; rfl
    · rw [h1, h2]; rfl

/-- C7, amended, at end-of-stream of stream 7 of `exConnected`: stream 8 stays
registered and the forwarder stays connected. -/
theorem on_data_eof_witness :
    (on_data (sysOk (ReadRes.bytes []) exTime 6) 7 (ascii "build") exConnected).regs
        = [⟨8, Callback.on_data, ascii "test"⟩] ∧
      (on_data (sysOk (ReadRes.bytes []) exTime 6) 7 (ascii "build") exConnected).logsock = 5 :=
  have h := on_data_eof (sysOk (ReadRes.bytes []) exTime 6) 7 (ascii "build") exConnected rfl rfl
    (by decide)
  ⟨h.2.1.trans (by decide), h.2.2.2.2.2.1⟩

/-- C8: a handoff message whose control data does not start with an
`SCM_RIGHTS` header of level `SOL_SOCKET` registers nothing: the only call is one
warning, and registrations, forwarder state and running state are unchanged. -/
theorem on_mysock_without_descriptor (sys : Sys) (s : Daemon) (payload : List Nat)
    (cmsg : Option CMsg)
    (hrecv : sys.recvmsg = RecvRes.msg payload cmsg)
    (hno : ∀ c, cmsg = some c → ¬ (c.level = SOL_SOCKET ∧ c.type = SCM_RIGHTS)) :
    callsOf (on_mysock sys) s = [Event.syslog LOG_WARNING] ∧
      (on_mysock sys s).regs = s.regs ∧
      (on_mysock sys s).logsock = s.logsock ∧
      (on_mysock sys s).exited = s.exited := by
  have hod : on_mysock sys s = { s with trace := s.trace ++ [Event.syslog LOG_WARNING] } := by
    cases cmsg with
    | none => simp [on_mysock, hrecv, mylog, emit, LOG_WARNING, LOG_ERR]
    | some c =>
      have := hno c rfl
      simp [on_mysock, hrecv, this, mylog, emit, LOG_WARNING, LOG_ERR]
  refine ⟨?_, by rw [hod], by rw [hod], by rw [hod]⟩
  unfold callsOf
  rw [hod]
  simp

/-- C8 at a message with tag `build` and no control data. -/
theorem on_mysock_without_descriptor_witness :
    (on_mysock (sysRecv (RecvRes.msg (ascii "build") none)) exConnected).regs
        = exConnected.regs ∧
      (on_mysock (sysRecv (RecvRes.msg (ascii "build") none)) exConnected).exited = false :=
  have h := on_mysock_without_descriptor (sysRecv (RecvRes.msg (ascii "build") none))
    exConnected (ascii "build") none rfl (fun c hc => by cases hc)
  ⟨h.2.1, h.2.2.2⟩

/-- C9, counterexample: the three-byte payload `a NUL b`, handed over with
descriptor 7, gives a stream whose tag is `a`, not the payload. -/
theorem on_mysock_nul_payload_counterexample :
    (on_mysock (sysRecv (RecvRes.msg [97, 0, 98] (some ⟨SOL_SOCKET, SCM_RIGHTS, 7⟩)))
        (main_init 3 4)).regs
      = (main_init 3 4).regs ++ [⟨7, Callback.on_data, [97]⟩] ∧
      [97, 0, 98].length ≤ 127 ∧ ([97] : List Nat) ≠ [97, 0, 98] := by
  decide

/-- C9, amended: a handoff message with attached descriptor makes `on_mysock`
register exactly one new stream for that descriptor with callback `on_data`;
its tag is the string held in the first 127 bytes of the payload, that is the
payload cut to 127 bytes when the payload has no NUL byte (the payload itself
when it also has at most 127 bytes), as is the case for every message of
`deliver_logcollect`; the tag has no NUL byte and at most 127 bytes, and the
write `text[len]` stays inside the 128-byte buffer. -/
theorem on_mysock_registers_stream (sys : Sys) (s : Daemon) (p : List Nat) (c : CMsg)
    (hrecv : sys.recvmsg = RecvRes.msg p (some c))
    (hlevel : c.level = SOL_SOCKET) (htype : c.type = SCM_RIGHTS) :
    callsOf (on_mysock sys) s =
        [Event.syslog LOG_NOTICE,
          Event.libe_add_fd c.data Callback.on_data (cstr (p.take 127))] ∧
      (on_mysock sys s).regs = s.regs ++ [⟨c.data, Callback.on_data, cstr (p.take 127)⟩] ∧
      ((∀ b ∈ p, b ≠ 0) → cstr (p.take 127) = p.take 127) ∧
      ((∀ b ∈ p, b ≠ 0) → p.length ≤ 127 → cstr (p.take 127) = p) ∧
      (∀ (fd : Int) (tag : List Nat), deliver_logcollect fd tag = RecvRes.msg p (some c) →
        c.data = fd ∧ cstr (p.take 127) = (cstr tag).take 127) ∧
      recvLen p < sizeof_text ∧
      (∀ b ∈ cstr (p.take 127), b ≠ 0) ∧
      (cstr (p.take 127)).length < sizeof_text ∧
      (on_mysock sys s).logsock = s.logsock ∧
      (on_mysock sys s).exited = s.exited := by
  have hod : on_mysock sys s = { s with
      regs := s.regs ++ [⟨c.data, Callback.on_data, cstr (p.take 127)⟩],
      trace := s.trace ++ [Event.syslog LOG_NOTICE,
        Event.libe_add_fd c.data Callback.on_data (cstr (p.take 127))] } := by
    simp [on_mysock, hrecv, hlevel, htype, mylog, emit, libe_add_fd, LOG_NOTICE, LOG_ERR,
      strdup, cstr_append_terminator, sizeof_text]
  have hnul : (∀ b ∈ p, b ≠ 0) → cstr (p.take 127) = p.take 127 := fun h =>
    cstr_eq_self (fun b hb => h b (List.mem_of_mem_take hb))
  refine ⟨?_, by rw [hod], hnul, ?_, ?_, ?_, cstr_no_nul _, ?_, by rw [hod], by rw [hod]⟩
  rotate_right 1
  · have h1 := cstr_length_le (p.take 127)
    simp only [List.length_take, sizeof_text] at h1 ⊢
    omega
  · unfold callsOf
    rw [hod]
    simp
  · intro h hlen
    rw [hnul h, List.take_of_length_le hlen]
  · intro fd tag hd
    simp only [deliver_logcollect, RecvRes.msg.injEq, Option.some.injEq] at hd
    obtain ⟨hp, hc⟩ := hd
    subst hp
    refine ⟨by rw [← hc], ?_⟩
    exact cstr_eq_self (fun b hb => cstr_no_nul tag b (List.mem_of_mem_take hb))
  · simp only [recvLen, sizeof_text, List.length_take]
    omega

/-- C9, amended, at the message of `deliver_logcollect` for descriptor 7 and tag
`build`. -/
theorem on_mysock_registers_stream_witness :
    (on_mysock (sysRecv (deliver_logcollect 7 (ascii "build"))) (main_init 3 4)).regs
      = (main_init 3 4).regs ++ [⟨7, Callback.on_data, ascii "build"⟩] :=
  (on_mysock_registers_stream (sysRecv (deliver_logcollect 7 (ascii "build"))) (main_init 3 4)
    (ascii "build") ⟨SOL_SOCKET, SCM_RIGHTS, 7⟩ (by decide) rfl rfl).2.1.trans (by decide)

/-- C10, counterexample: for the chunks `a` and `NUL b` the two reads send one
message, and so does a single read of their concatenation. -/
theorem on_data_nul_boundary_counterexample :
    sentBodies (callsOf
        (fun t => on_data (sysOk (ReadRes.bytes [0, 98]) exTime 6) 7 (ascii "build")
          (on_data (sysOk (ReadRes.bytes [97]) exTime 6) 7 (ascii "build") t))
        exConnected) = [[97]] ∧
      sentBodies (callsOf
        (on_data (sysOk (ReadRes.bytes ([97] ++ [0, 98])) exTime 6) 7 (ascii "build"))
        exConnected) = [[97]] ∧
      isDelim 97 = false ∧ isDelim 0 = false := by
  decide

/-- C10, amended: two non-empty chunks `A` and `B` read one after the other
(forwarder connected, all sends succeeding) are forwarded as the records of `A`
followed by the records of `B`.  When moreover neither chunk holds a NUL byte,
`A` does not end and `B` does not start with CR or LF, the line across the
boundary is forwarded as the last record of `A` and the first record of `B`,
where a single read of `A ++ B` forwards their concatenation as one record: the
two reads send exactly one message more. -/
theorem on_data_no_line_state (sysA sysB sysAB : Sys) (fd : Int) (dat : List Nat)
    (s : Daemon) (A B : List Nat)
    (hA : sysA.read = ReadRes.bytes A) (hB : sysB.read = ReadRes.bytes B)
    (hAB : sysAB.read = ReadRes.bytes (A ++ B))
    (hAne : A ≠ []) (hBne : B ≠ [])
    (hconn : 0 ≤ s.logsock) (hrun : s.exited = false)
    (hsA : ∀ j, sysA.sendmsg j = SendRes.ok) (hsB : ∀ j, sysB.sendmsg j = SendRes.ok)
    (hsAB : ∀ j, sysAB.sendmsg j = SendRes.ok) :
    sentBodies (callsOf (fun t => on_data sysB fd dat (on_data sysA fd dat t)) s)
        = records A ++ records B ∧
      sentBodies (callsOf (on_data sysAB fd dat) s) = records (A ++ B) ∧
      ((∀ c ∈ A, c ≠ 0) → (∀ c ∈ B, c ≠ 0) →
        ∀ a b, A.getLast? = some a → isDelim a = false → B.head? = some b →
          isDelim b = false →
          (∃ pre last hd post, records A = pre ++ [last] ∧ records B = hd :: post ∧
            records (A ++ B) = pre ++ [last ++ hd] ++ post) ∧
          (sentBodies (callsOf (fun t => on_data sysB fd dat (on_data sysA fd dat t)) s)).length
            = (sentBodies (callsOf (on_data sysAB fd dat) s)).length + 1) := by
  have hABne : A ++ B ≠ [] := by simp [hAne]
  have run1 : ∀ (sys : Sys) (X : List Nat) (u : Daemon), sys.read = ReadRes.bytes X → X ≠ [] →
      (∀ j, sys.sendmsg j = SendRes.ok) → 0 ≤ u.logsock → u.exited = false →
      on_data sys fd dat u =
        { u with
          trace := u.trace ++ (records X).map
            (fun r => Event.sendmsg u.logsock (header sys.time dat) r SendRes.ok) } := by
    intro sys X u hr hne hs hc hx
    rw [on_data_connected sys fd dat u X hr hne hc hx, forward_all_ok sys _ hs _ _ _ u hc]
    rfl
  have h1 := run1 sysA A s hA hAne hsA hconn hrun
  have h2 := run1 sysB B (on_data sysA fd dat s) hB hBne hsB (by rw [h1]; exact hconn)
    (by rw [h1]; exact hrun)
  have h3 := run1 sysAB (A ++ B) s hAB hABne hsAB hconn hrun
  have e1 : sentBodies (callsOf (fun t => on_data sysB fd dat (on_data sysA fd dat t)) s)
      = records A ++ records B := by
    unfold callsOf
    simp only [h2]
    simp only [h1, List.append_assoc, List.drop_left, sentBodies_append, sentBodies_map_ok]
  have e2 : sentBodies (callsOf (on_data sysAB fd dat) s) = records (A ++ B) := by
    unfold callsOf
    rw [h3]
    simp only [List.drop_left, sentBodies_map_ok]
  refine ⟨e1, e2, ?_⟩
  intro hA0 hB0 a b hla ha hhb hb
  have hAB0 : ∀ c ∈ A ++ B, c ≠ 0 := by
    intro c hc
    rcases List.mem_append.mp hc with h | h
    · exact hA0 c h
    · exact hB0 c h
  obtain ⟨pre, last, hd, post, g1, g2, g3⟩ := segments_append_text A B a b hla ha hhb hb
  rw [← records_eq_segments hA0] at g1
  rw [← records_eq_segments hB0] at g2
  rw [← records_eq_segments hAB0] at g3
  refine ⟨⟨pre, last, hd, post, g1, g2, g3⟩, ?_⟩
  rw [e1, e2, g1, g2, g3]
  simp only [List.length_append, List.length_cons, List.length_nil]
  omega

/-- C10, amended, at the chunks `ab` and `cd LF`: the two reads forward `ab` and
`cd`, a single read forwards `abcd`. -/
theorem on_data_no_line_state_witness :
    sentBodies (callsOf
        (fun t => on_data (sysOk (ReadRes.bytes (ascii "cd\n")) exTime 6) 7 (ascii "build")
          (on_data (sysOk (ReadRes.bytes (ascii "ab")) exTime 6) 7 (ascii "build") t))
        exConnected) = [ascii "ab", ascii "cd"] ∧
      sentBodies (callsOf
        (on_data (sysOk (ReadRes.bytes (ascii "ab" ++ ascii "cd\n")) exTime 6) 7 (ascii "build"))
        exConnected) = [ascii "abcd"] ∧
      (sentBodies (callsOf
        (fun t => on_data (sysOk (ReadRes.bytes (ascii "cd\n")) exTime 6) 7 (ascii "build")
          (on_data (sysOk (ReadRes.bytes (ascii "ab")) exTime 6) 7 (ascii "build") t))
        exConnected)).length =
      (sentBodies (callsOf
        (on_data (sysOk (ReadRes.bytes (ascii "ab" ++ ascii "cd\n")) exTime 6) 7 (ascii "build"))
        exConnected)).length + 1 :=
  have h := on_data_no_line_state (sysOk (ReadRes.bytes (ascii "ab")) exTime 6)
    (sysOk (ReadRes.bytes (ascii "cd\n")) exTime 6)
    (sysOk (ReadRes.bytes (ascii "ab" ++ ascii "cd\n")) exTime 6) 7 (ascii "build") exConnected
    (ascii "ab") (ascii "cd\n") rfl rfl rfl (by decide) (by decide) (by decide) rfl
    (fun _ => rfl) (fun _ => rfl) (fun _ => rfl)
  ⟨h.1.trans (by decide), h.2.1.trans (by decide),
    (h.2.2 (by decide) (by decide) 98 99 (by decide) (by decide) (by decide) (by decide)).2⟩

end Logcollectd
